import Mathlib

/-!
Verification of the quant-trading-strategy-backtester core against its
specification.

The Python source operates on polars DataFrames of 64-bit floats.  We embed
the numeric domain as the rationals extended with the distinguished scalars
polars exposes: `null` (missing value), `nan`, and the two infinities
(rounding error is idealised away; every claim below speaks about exact or
macroscopically separated values).  Column operations (shift, diff,
forward_fill, fill_null, rolling windows, when/then/otherwise, cum_prod,
cum_max) are translated function by function from the source files in
`src/quant_trading_strategy_backtester/`.
-/

namespace QTSB

/-- A polars float cell: null, NaN, +inf, -inf, or a finite value
(idealised as a rational). -/
inductive FV where
  | null : FV
  | nan : FV
  | pinf : FV
  | ninf : FV
  | num : ℚ → FV
  deriving DecidableEq, Repr

namespace FV

/-- Addition with polars semantics: null propagates, then NaN, then the
IEEE rules for infinities. -/
def add : FV → FV → FV
  | null, _ => null
  | _, null => null
  | nan, _ => nan
  | _, nan => nan
  | pinf, ninf => nan
  | ninf, pinf => nan
  | pinf, _ => pinf
  | _, pinf => pinf
  | ninf, _ => ninf
  | _, ninf => ninf
  | num a, num b => num (a + b)

/-- Subtraction with polars semantics. -/
def sub : FV → FV → FV
  | null, _ => null
  | _, null => null
  | nan, _ => nan
  | _, nan => nan
  | pinf, pinf => nan
  | ninf, ninf => nan
  | pinf, _ => pinf
  | _, pinf => ninf
  | ninf, _ => ninf
  | _, ninf => pinf
  | num a, num b => num (a - b)

/-- Multiplication with polars semantics (0 * inf = NaN, as in IEEE 754). -/
def mul : FV → FV → FV
  | null, _ => null
  | _, null => null
  | nan, _ => nan
  | _, nan => nan
  | pinf, pinf => pinf
  | pinf, ninf => ninf
  | ninf, pinf => ninf
  | ninf, ninf => pinf
  | pinf, num b => if b = 0 then nan else if 0 < b then pinf else ninf
  | num a, pinf => if a = 0 then nan else if 0 < a then pinf else ninf
  | ninf, num b => if b = 0 then nan else if 0 < b then ninf else pinf
  | num a, ninf => if a = 0 then nan else if 0 < a then ninf else pinf
  | num a, num b => num (a * b)

/-- Division with polars semantics: a finite value divided by (positive)
zero is a signed infinity, 0/0 is NaN, x/inf is 0. -/
def div : FV → FV → FV
  | null, _ => null
  | _, null => null
  | nan, _ => nan
  | _, nan => nan
  | pinf, pinf => nan
  | pinf, ninf => nan
  | ninf, pinf => nan
  | ninf, ninf => nan
  | pinf, num b => if 0 ≤ b then pinf else ninf
  | ninf, num b => if 0 ≤ b then ninf else pinf
  | num _, pinf => num 0
  | num _, ninf => num 0
  | num a, num b =>
      if b = 0 then (if a = 0 then nan else if 0 < a then pinf else ninf)
      else num (a / b)

/-- Elementwise `<` as polars computes it: `none` models a null mask entry
(null propagates), and any comparison involving NaN is false (IEEE). -/
def ltb : FV → FV → Option Bool
  | null, _ => none
  | _, null => none
  | nan, _ => some false
  | _, nan => some false
  | ninf, ninf => some false
  | ninf, _ => some true
  | pinf, _ => some false
  | _, pinf => some true
  | _, ninf => some false
  | num a, num b => some (decide (a < b))

/-- Elementwise `>`. -/
def gtb (a b : FV) : Option Bool := ltb b a

/-- Elementwise `!=` as polars computes it on floats: null propagates and
NaN is unequal to everything (IEEE). -/
def neb : FV → FV → Option Bool
  | null, _ => none
  | _, null => none
  | nan, _ => some true
  | _, nan => some true
  | num a, num b => some (decide (a ≠ b))
  | x, y => some (decide (x ≠ y))

/-- Elementwise `==` on floats: null propagates, NaN equals nothing. -/
def eqb : FV → FV → Option Bool
  | null, _ => none
  | _, null => none
  | nan, _ => some false
  | _, nan => some false
  | num a, num b => some (decide (a = b))
  | x, y => some (decide (x = y))

/-- Absolute value. -/
def fabs : FV → FV
  | null => null
  | nan => nan
  | pinf => pinf
  | ninf => pinf
  | num a => num (|a|)

/-- `pl.when(mask).then(t).otherwise(e)`: a true mask entry selects `t`, a
false one selects `e`, and a null mask entry yields null (polars
propagates null through when/then/otherwise). -/
def when (m : Option Bool) (t e : FV) : FV :=
  match m with
  | some true => t
  | some false => e
  | none => null

/-- The Python-level scalar comparison `a > b` used by the optimiser loop:
an ordinary IEEE `>` on floats, `False` whenever NaN is involved. -/
def pygt (a b : FV) : Bool := (ltb b a).getD false

end FV

/-- The rolling window of size `w` ending at index `i` (inclusive), as used
by polars `rolling_*` operations with `min_periods=1`: the elements at
indices `max 0 (i+1-w) .. i`. -/
def window (xs : List ℚ) (w i : Nat) : List ℚ := (xs.take (i + 1)).drop (i + 1 - w)

/-- Arithmetic mean of a list of rationals (polars `mean`). -/
def qmean (l : List ℚ) : ℚ := l.sum / l.length

/-- Sample variance with `ddof = 1` (the polars default). -/
def sampleVar (l : List ℚ) : ℚ :=
  ((l.map (fun x => (x - qmean l) ^ 2)).sum) / ((l.length : ℚ) - 1)

/-- `rolling_mean(window_size=w, min_periods=1)` at row `i`. -/
def rollingMean (xs : List ℚ) (w i : Nat) : ℚ := qmean (window xs w i)

/-- `rolling_std(window_size=w, min_periods=1)` at row `i`, on a column
without nulls.  `sq` abstracts the IEEE square root on the nonnegative
variance (its values are irrelevant to every claim below).  The polars
no-nulls rolling-variance kernel special-cases a single-observation window
to variance `0` before performing the `n - ddof` division, so with
`min_periods=1` the first row's rolling standard deviation is `0.0`, not
null or NaN. -/
def rollingStd (sq : ℚ → ℚ) (xs : List ℚ) (w i : Nat) : ℚ :=
  let l := window xs w i
  if l.length ≤ 1 then 0 else sq (sampleVar l)

/-- `Expr.forward_fill()` scan: `last` is the most recent non-null value
seen so far (initially null). -/
def ffillAux (last : FV) : List FV → List FV
  | [] => []
  | x :: xs =>
      let y := if x = FV.null then last else x
      y :: ffillAux y xs

/-- `Expr.forward_fill()` on a whole column. -/
def forwardFill (xs : List FV) : List FV := ffillAux FV.null xs

/-- `Expr.fill_null(v)`. -/
def fillNullCol (v : FV) (xs : List FV) : List FV :=
  xs.map (fun x => if x = FV.null then v else x)

/-- `Expr.diff()`: element `i` becomes `x[i] - x[i-1]`, with the first
element null (no predecessor). -/
def diffCol (xs : List FV) : List FV := List.zipWith FV.sub xs (FV.null :: xs)

/-- `Expr.shift(1)`: prepend a null and drop the last element. -/
def shiftCol (xs : List FV) : List FV := (FV.null :: xs).take xs.length

/-! ## Pairs trading strategy
Translated from `strategies/pairs_trading.py` (`PairsTradingStrategy`). -/

/-- Parameters of `PairsTradingStrategy.__init__`. -/
structure PairsParams where
  window : Nat
  entry_z_score : ℚ
  exit_z_score : ℚ

/-- `spread = Close_1 - Close_2`. -/
def spreadList (c1 c2 : List ℚ) : List ℚ := List.zipWith (fun a b => a - b) c1 c2

/-- The `z_score` cell at row `i`:
`pl.when(spread_std != 0).then((spread - spread_mean) / spread_std).otherwise(0)`. -/
def pairsZCell (sq : ℚ → ℚ) (s : List ℚ) (w i : Nat) : FV :=
  let sd := FV.num (rollingStd sq s w i)
  FV.when (FV.neb sd (FV.num 0))
    (FV.div (FV.sub (FV.num (s.getD i 0)) (FV.num (rollingMean s w i))) sd)
    (FV.num 0)

/-- The full `z_score` column. -/
def zScoreCol (sq : ℚ → ℚ) (c1 c2 : List ℚ) (w : Nat) : List FV :=
  (List.range (spreadList c1 c2).length).map
    (fun i => pairsZCell sq (spreadList c1 c2) w i)

/-- The rational value held by the `z_score` cell at row `i` (the cell is
always a finite number; see `pairs_z_score_division_guard`). -/
def pairsZQ (sq : ℚ → ℚ) (s : List ℚ) (w i : Nat) : ℚ :=
  if rollingStd sq s w i = 0 then 0
  else (s.getD i 0 - rollingMean s w i) / rollingStd sq s w i

/-- The chained when/then signal of `PairsTradingStrategy.generate_signals`:
`when(z > entry).then(-1).when(z < -entry).then(1)
 .when(|z| < exit).then(0).otherwise(None)`. -/
def pairsRawSignal (p : PairsParams) (z : FV) : FV :=
  FV.when (FV.gtb z (FV.num p.entry_z_score)) (FV.num (-1))
    (FV.when (FV.ltb z (FV.num (-p.entry_z_score))) (FV.num 1)
      (FV.when (FV.ltb (FV.fabs z) (FV.num p.exit_z_score)) (FV.num 0) FV.null))

/-- The `signal` column: raw signal, forward-filled, then nulls filled
with 0. -/
def pairsSignal (sq : ℚ → ℚ) (c1 c2 : List ℚ) (p : PairsParams) : List FV :=
  fillNullCol (FV.num 0)
    (forwardFill ((zScoreCol sq c1 c2 p.window).map (pairsRawSignal p)))

/-- The `positions` column: `signal.diff().fill_null(0)`. -/
def pairsPositions (sq : ℚ → ℚ) (c1 c2 : List ℚ) (p : PairsParams) : List FV :=
  fillNullCol (FV.num 0) (diffCol (pairsSignal sq c1 c2 p))

/-! ## Mean reversion strategy
Translated from `strategies/mean_reversion.py` (`MeanReversionStrategy`). -/

/-- Parameters of `MeanReversionStrategy.__init__`. -/
structure MeanReversionParams where
  window : Nat
  std_dev : ℚ

/-- The adjusted `std` cell: `when(std == 0).then(nan).otherwise(std)`
("Avoid division by zero by replacing 0s with NaN"). -/
def mrStdAdj (sq : ℚ → ℚ) (close : List ℚ) (w i : Nat) : FV :=
  let sd := FV.num (rollingStd sq close w i)
  FV.when (FV.eqb sd (FV.num 0)) FV.nan sd

/-- `upper_band = mean + std_dev * std`. -/
def mrUpper (sq : ℚ → ℚ) (p : MeanReversionParams) (close : List ℚ) (i : Nat) : FV :=
  FV.add (FV.num (rollingMean close p.window i))
    (FV.mul (FV.num p.std_dev) (mrStdAdj sq close p.window i))

/-- `lower_band = mean - std_dev * std`. -/
def mrLower (sq : ℚ → ℚ) (p : MeanReversionParams) (close : List ℚ) (i : Nat) : FV :=
  FV.sub (FV.num (rollingMean close p.window i))
    (FV.mul (FV.num p.std_dev) (mrStdAdj sq close p.window i))

/-- The `signal` cell of `MeanReversionStrategy.generate_signals`:
`when(Close < lower_band).then(1.0).when(Close > upper_band).then(-1.0)
 .otherwise(0.0)`. -/
def mrSignal (sq : ℚ → ℚ) (p : MeanReversionParams) (close : List ℚ) (i : Nat) : FV :=
  FV.when (FV.ltb (FV.num (close.getD i 0)) (mrLower sq p close i)) (FV.num 1)
    (FV.when (FV.gtb (FV.num (close.getD i 0)) (mrUpper sq p close i)) (FV.num (-1))
      (FV.num 0))

/-! ## Empty-input schemas (claim C4)
Each `generate_signals` starts with `if data.is_empty(): return
pl.DataFrame(schema=[...])`; these are the literal column-name lists of
those schemas, and the column lists of the frames produced on non-empty
input (reading off each `select`/`with_columns` chain). -/

/-- Schema returned by `PairsTradingStrategy.generate_signals` on empty
input (pairs_trading.py lines 64-74). -/
def pairsTradingEmptySchema : List String :=
  ["Date", "Close", "short_mavg", "long_mavg", "signal", "positions"]

/-- Schema returned by `MeanReversionStrategy.generate_signals` on empty
input (mean_reversion.py lines 50-60). -/
def meanReversionEmptySchema : List String :=
  ["Date", "Close", "short_mavg", "long_mavg", "signal", "positions"]

/-- Schema returned by `MovingAverageCrossoverStrategy.generate_signals` on
empty input (moving_average_crossover.py lines 47-57). -/
def movingAverageEmptySchema : List String :=
  ["Date", "Close", "short_mavg", "long_mavg", "signal", "positions"]

/-- Schema returned by `BuyAndHoldStrategy.generate_signals` on empty
input (buy_and_hold.py lines 34-42). -/
def buyAndHoldEmptySchema : List String :=
  ["Date", "Close", "signal", "positions"]

/-- Columns of the frame `PairsTradingStrategy.generate_signals` returns on
non-empty input. -/
def pairsTradingColumns : List String :=
  ["Date", "Close_1", "Close_2", "spread", "spread_mean", "spread_std",
   "z_score", "signal", "positions"]

/-- Columns of the frame `MeanReversionStrategy.generate_signals` returns
on non-empty input. -/
def meanReversionColumns : List String :=
  ["Date", "Close", "mean", "std", "upper_band", "lower_band", "signal",
   "positions"]

/-! ## Backtester
Translated from `backtester.py` (`Backtester._calculate_returns` and
`Backtester.get_performance_metrics`). -/

/-- `(col - col.shift(1)) / col.shift(1)` on a null-free price column:
null at row 0, otherwise the day-over-day percentage change (a signed
infinity or NaN when the previous price is zero, per `FV.div`). -/
def pctChange (prices : List ℚ) : List FV :=
  (List.range prices.length).map (fun i =>
    if i = 0 then FV.null
    else
      FV.div (FV.sub (FV.num (prices.getD i 0)) (FV.num (prices.getD (i - 1) 0)))
        (FV.num (prices.getD (i - 1) 0)))

/-- Single-asset `asset_returns = pct_change(Close)`. -/
def assetReturnsSingle (close : List ℚ) : List FV := pctChange close

/-- Pairs `asset_returns = pct_change(Close_1) - pct_change(Close_2)`. -/
def assetReturnsPairs (c1 c2 : List ℚ) : List FV :=
  List.zipWith FV.sub (pctChange c1) (pctChange c2)

/-- `positions.shift(1) * asset_returns`, then
`replace({inf: None, -inf: None})`, then `fill_null(0)`. -/
def strategyReturnsCol (positions assetRet : List FV) : List FV :=
  fillNullCol (FV.num 0)
    ((List.zipWith FV.mul (shiftCol positions) assetRet).map
      (fun x => match x with
        | FV.pinf => FV.null
        | FV.ninf => FV.null
        | v => v))

/-- Scan for `(1 + strategy_returns).cum_prod()`: `acc` is the running
product so far. -/
def cumProdAux (acc : FV) : List FV → List FV
  | [] => []
  | x :: xs =>
      let y := FV.mul acc (FV.add (FV.num 1) x)
      y :: cumProdAux y xs

/-- `cumulative_returns = (1 + strategy_returns).cum_prod()`. -/
def cumulativeReturnsCol (sr : List FV) : List FV := cumProdAux (FV.num 1) sr

/-- `equity_curve = initial_capital * (1 + strategy_returns).cum_prod()`. -/
def equityCurveCol (capital : ℚ) (sr : List FV) : List FV :=
  (cumulativeReturnsCol sr).map (fun x => FV.mul (FV.num capital) x)

/-- The columns of the `Backtester.run` result relevant to the claims. -/
structure BacktestResult where
  positions : List FV
  asset_returns : List FV
  strategy_returns : List FV
  cumulative_returns : List FV
  equity_curve : List FV

/-- `Backtester._calculate_returns` for single-asset data (`Close`
present). -/
def calcReturnsSingle (capital : ℚ) (close : List ℚ) (positions : List FV) :
    BacktestResult :=
  let ar := assetReturnsSingle close
  let sr := strategyReturnsCol positions ar
  { positions := positions
    asset_returns := ar
    strategy_returns := sr
    cumulative_returns := cumulativeReturnsCol sr
    equity_curve := equityCurveCol capital sr }

/-- `Backtester._calculate_returns` for pairs data (`Close_1`/`Close_2`
present). -/
def calcReturnsPairs (capital : ℚ) (c1 c2 : List ℚ) (positions : List FV) :
    BacktestResult :=
  let ar := assetReturnsPairs c1 c2
  let sr := strategyReturnsCol positions ar
  { positions := positions
    asset_returns := ar
    strategy_returns := sr
    cumulative_returns := cumulativeReturnsCol sr
    equity_curve := equityCurveCol capital sr }

/-! ### Performance metrics -/

/-- The finite values of a column (polars aggregations skip nulls). -/
def numsOf (xs : List FV) : List ℚ :=
  xs.filterMap (fun x => match x with | FV.num q => some q | _ => none)

/-- Whether a column contains a NaN cell (NaN poisons polars mean/std). -/
def colHasNan (xs : List FV) : Bool := xs.any (fun x => x = FV.nan)

/-- `Series.mean()`: skips nulls, propagates NaN, and is `None` (here
`none`) on an all-null/empty series. -/
def seriesMeanF (xs : List FV) : Option FV :=
  if colHasNan xs then some FV.nan
  else
    let vs := numsOf xs
    if vs.isEmpty then none else some (FV.num (qmean vs))

/-- `Series.std()` with `ddof = 1`: skips nulls, propagates NaN, and is
`None` (here `none`) when fewer than two non-null values remain — in
particular on a single-row series. -/
def seriesStdF (sq : ℚ → ℚ) (xs : List FV) : Option FV :=
  if colHasNan xs then some FV.nan
  else
    let vs := numsOf xs
    if vs.length ≤ 1 then none else some (FV.num (sq (sampleVar vs)))

/-- The Sharpe-ratio computation of `Backtester.get_performance_metrics`
(backtester.py lines 128-134), with its Python scalar semantics made
explicit.  `returns_std != 0` is `True` when `returns_std` is `None`
(Python `None != 0`), and `not pl.Series([None]).is_nan()[0]` is `not
None`, i.e. `True`; so when the standard deviation is undefined the guard
passes and the expression `sqrt(252) * returns_mean / returns_std`
evaluates with a `None` operand, which raises a `TypeError` (modelled as
`Except.error`). -/
def sharpeOf (sq : ℚ → ℚ) (sr : List FV) : Except String FV :=
  let m := seriesMeanF sr
  let sd := seriesStdF sq sr
  let guardA : Bool :=
    match sd with
    | none => true
    | some v => decide (v ≠ FV.num 0)
  let guardB : Bool :=
    match sd with
    | none => true
    | some FV.nan => false
    | some _ => true
  if guardA && guardB then
    match m, sd with
    | some mv, some sdv => Except.ok (FV.mul (FV.num (sq 252)) (FV.div mv sdv))
    | _, _ => Except.error "TypeError"
  else Except.ok FV.nan

/-- `cum_max` combine: nulls are skipped, NaN propagates, finite values
take the maximum. -/
def FV.maxv : FV → FV → FV
  | FV.null, y => y
  | x, FV.null => x
  | FV.nan, _ => FV.nan
  | _, FV.nan => FV.nan
  | FV.pinf, _ => FV.pinf
  | _, FV.pinf => FV.pinf
  | FV.ninf, y => y
  | x, FV.ninf => x
  | FV.num a, FV.num b => FV.num (max a b)

/-- Scan for `Expr.cum_max()`. -/
def cumMaxAux (acc : FV) : List FV → List FV
  | [] => []
  | x :: xs =>
      let y := FV.maxv acc x
      y :: cumMaxAux y xs

/-- `equity_curve.cum_max()`. -/
def cumMaxCol (xs : List FV) : List FV := cumMaxAux FV.null xs

/-- `Series.min()` combine (nulls skipped, NaN propagates). -/
def FV.minv : FV → FV → FV
  | FV.null, y => y
  | x, FV.null => x
  | FV.nan, _ => FV.nan
  | _, FV.nan => FV.nan
  | FV.ninf, _ => FV.ninf
  | _, FV.ninf => FV.ninf
  | FV.pinf, y => y
  | x, FV.pinf => x
  | FV.num a, FV.num b => FV.num (min a b)

/-- `Series.min()`: null on an empty series. -/
def minCol (xs : List FV) : FV := xs.foldl FV.minv FV.null

/-- `drawdowns = equity_curve / equity_curve.cum_max() - 1`. -/
def drawdownsCol (equity : List FV) : List FV :=
  List.zipWith (fun e m => FV.sub (FV.div e m) (FV.num 1)) equity (cumMaxCol equity)

/-- `max_drawdown = drawdowns.min()` for a single-asset backtest. -/
def maxDrawdownSingle (capital : ℚ) (close : List ℚ) (positions : List FV) : FV :=
  minCol (drawdownsCol (calcReturnsSingle capital close positions).equity_curve)

/-! ## Parameter optimiser
Translated from `optimiser.py` (`optimise_strategy_params`).  `score`
abstracts `run_backtest(data, strategy_type, current_params)[1]["Sharpe
Ratio"]`: the Sharpe ratio the backtest assigns to a candidate parameter
dictionary — every theorem below holds for an arbitrary such function.
`parameter_ranges` is a Python insertion-ordered dict whose values have
already been materialised into lists (`list(value) if isinstance(value,
range) else value`), modelled as an association list. -/

/-- A concrete parameter dictionary `dict(zip(param_names, params))`. -/
abbrev Candidate := List (String × ℚ)

/-- The running state of the optimiser loop: `best_params` starts as
Python `None`, `best_sharpe` as `float("-inf")`. -/
structure OptState where
  best_params : Option Candidate
  best_sharpe : FV

/-- `itertools.product`: the leftmost axis varies slowest. -/
def itProduct {α : Type} : List (List α) → List (List α)
  | [] => [[]]
  | vs :: rest => vs.flatMap (fun v => (itProduct rest).map (fun c => v :: c))

/-- One iteration of the optimiser loop: update the running best when the
candidate's Sharpe ratio is strictly greater (`>`', so NaN never wins and
the first of an exact tie is kept). -/
def optStep (score : Candidate → FV) (names : List String) (st : OptState)
    (vals : List ℚ) : OptState :=
  let current := names.zip vals
  if FV.pygt (score current) st.best_sharpe then
    { best_params := some current, best_sharpe := score current }
  else st

/-- The optimiser loop over the enumerated parameter combinations. -/
def optLoop (score : Candidate → FV) (names : List String) :
    List (List ℚ) → OptState → OptState
  | [], st => st
  | c :: cs, st => optLoop score names cs (optStep score names st c)

/-- `optimise_strategy_params` (optimiser.py lines 150-185).  After the
loop, Python raises `ValueError("Parameter optimisation failed")` when
`not best_params or not best_metrics`; `best_metrics`, when set, is the
three-key metrics dict and hence truthy, while `best_params` is falsy both
when it is still `None` and when it is the empty dict `{}`. -/
def optimise_strategy_params (score : Candidate → FV)
    (ranges : List (String × List ℚ)) : Except String (Candidate × FV) :=
  let names := ranges.map Prod.fst
  let combos := itProduct (ranges.map Prod.snd)
  let final := optLoop score names combos { best_params := none, best_sharpe := FV.ninf }
  match final.best_params with
  | none => Except.error "Parameter optimisation failed"
  | some ps =>
      if ps.isEmpty then Except.error "Parameter optimisation failed"
      else Except.ok (ps, final.best_sharpe)

/-! ## Claim statements -/

/-- Claim C2, as a predicate on a successful optimiser run: the enumerated
candidate set is the full cartesian product (every pointwise choice from
the ranges occurs), the winner is one of the enumerated combinations, its
Sharpe ratio is never exceeded by any enumerated candidate, and no
earlier-enumerated candidate attains exactly the winning Sharpe ratio
(first-seen wins on ties). -/
def optBestProp (score : Candidate → FV) (ranges : List (String × List ℚ))
    (ps : Candidate) (s : FV) : Prop :=
  (∀ vs : List ℚ, List.Forall₂ (fun v l => v ∈ l) vs (ranges.map Prod.snd) →
      vs ∈ itProduct (ranges.map Prod.snd)) ∧
  ∃ pre c post, itProduct (ranges.map Prod.snd) = pre ++ c :: post ∧
    ps = (ranges.map Prod.fst).zip c ∧ s = score ps ∧
    (∀ d ∈ itProduct (ranges.map Prod.snd),
        FV.pygt (score ((ranges.map Prod.fst).zip d)) s = false) ∧
    (∀ d ∈ pre, score ((ranges.map Prod.fst).zip d) ≠ s)

/-- Invariant of the optimiser loop: the running best Sharpe ratio is not
exceeded by any processed candidate, and the running best (when set) is a
processed candidate that beat `-inf`, with no earlier processed candidate
scoring exactly the running best. -/
def StateInv (score : Candidate → FV) (names : List String)
    (processed : List (List ℚ)) (st : OptState) : Prop :=
  (∀ d ∈ processed, FV.pygt (score (names.zip d)) st.best_sharpe = false) ∧
  ((st.best_params = none ∧ st.best_sharpe = FV.ninf) ∨
    (∃ pre c post, processed = pre ++ c :: post ∧
      st.best_params = some (names.zip c) ∧
      st.best_sharpe = score (names.zip c) ∧
      FV.pygt st.best_sharpe FV.ninf = true ∧
      (∀ d ∈ pre, score (names.zip d) ≠ st.best_sharpe)))

/-- Claim C3, as a predicate on row `t` of the Pairs-Trading signals: the
signal follows the entry/exit/hysteresis rule (conditions evaluated in the
source's when-chain order), rows whose signal is not determinable repeat
the previous row's signal (0 at the first row), and `positions` is the
day-over-day difference of `signal` with first value 0. -/
def pairsSignalProp (sq : ℚ → ℚ) (c1 c2 : List ℚ) (p : PairsParams) (t : Nat) : Prop :=
  let sig := pairsSignal sq c1 c2 p
  let pos := pairsPositions sq c1 c2 p
  let z := pairsZQ sq (spreadList c1 c2) p.window t
  (p.entry_z_score < z → sig.getD t FV.null = FV.num (-1)) ∧
  (¬ p.entry_z_score < z → z < -p.entry_z_score → sig.getD t FV.null = FV.num 1) ∧
  (¬ p.entry_z_score < z → ¬ z < -p.entry_z_score → |z| < p.exit_z_score →
    sig.getD t FV.null = FV.num 0) ∧
  (¬ p.entry_z_score < z → ¬ z < -p.entry_z_score → ¬ |z| < p.exit_z_score →
    sig.getD t FV.null = (if t = 0 then FV.num 0 else sig.getD (t - 1) FV.null)) ∧
  pos.getD 0 FV.null = FV.num 0 ∧
  (0 < t → pos.getD t FV.null = FV.sub (sig.getD t FV.null) (sig.getD (t - 1) FV.null))

/-- Claim C8, as a predicate on row `t` of the Pairs-Trading `z_score`
column: where the rolling standard deviation is nonzero the z-score is the
standardised spread, where it is zero the z-score is 0, and the cell is
always a finite number (never null). -/
def zScoreProp (sq : ℚ → ℚ) (c1 c2 : List ℚ) (w t : Nat) : Prop :=
  let s := spreadList c1 c2
  let sd := rollingStd sq s w t
  (sd ≠ 0 →
    (zScoreCol sq c1 c2 w).getD t FV.null =
      FV.num ((s.getD t 0 - rollingMean s w t) / sd)) ∧
  (sd = 0 → (zScoreCol sq c1 c2 w).getD t FV.null = FV.num 0) ∧
  ∃ q, (zScoreCol sq c1 c2 w).getD t FV.null = FV.num q

/-- Claim C9, as a predicate: the max drawdown of a completed single-asset
backtest is a finite nonpositive number. -/
def maxDrawdownProp (capital : ℚ) (close posq : List ℚ) : Prop :=
  ∃ m : ℚ, maxDrawdownSingle capital close (posq.map FV.num) = FV.num m ∧ m ≤ 0

/-! ### Rational shadows of the backtest pipeline
On a price series without zero prices every cell of the backtest pipeline
is a finite number; these functions compute those rational values, and the
lemmas below show the `FV`-level pipeline equals their `FV.num` image. -/

/-- The day-over-day percentage change at row `i ≥ 1`. -/
def assetRetQ (close : List ℚ) (i : Nat) : ℚ :=
  (close.getD i 0 - close.getD (i - 1) 0) / close.getD (i - 1) 0

/-- The strategy-returns column of a single-asset backtest as rationals:
0 at row 0, `positions[i-1] * asset_returns[i]` afterwards. -/
def srQ (close posq : List ℚ) : List ℚ :=
  (List.range close.length).map
    (fun i => if i = 0 then 0 else posq.getD (i - 1) 0 * assetRetQ close i)

/-- Rational shadow of `cumProdAux`. -/
def cumProdQ (a : ℚ) : List ℚ → List ℚ
  | [] => []
  | x :: xs => (a * (1 + x)) :: cumProdQ (a * (1 + x)) xs

/-- Rational shadow of `cumMaxAux`. -/
def cumMaxQ (a : ℚ) : List ℚ → List ℚ
  | [] => []
  | x :: xs => (max a x) :: cumMaxQ (max a x) xs

/-! # Theorems -/

/-- Claim C1: Evaluation of `Backtester._calculate_returns` at the spec's own
example: price series `[100, 110, 121, 133.1, 119.79]` with `positions =
signal.diff() = [0, 1, 0, 0, -1]` (from `signal = [0, 1, 1, 1, 0]`).
Because the code lags the `positions` column (the day-over-day trade), not
the held exposure, the strategy returns come out as `[0, 0, 0.10, 0, 0]`
and the final cumulative return minus 1 is `0.10` — not the
`[0, 0, 0.10, 0.10, -0.10]` and `≈ 0.089` that the claim (and the repo's
own `test_returns_captured_while_holding_position`) state: the return is
captured only on the single day after the position change, not on every
day the signal is held. -/
theorem backtester_positions_lag_eval :
    (calcReturnsSingle 100000 [100, 110, 121, 1331/10, 11979/100]
        ([0, 1, 0, 0, -1].map FV.num)).strategy_returns =
      [FV.num 0, FV.num 0, FV.num (1/10), FV.num 0, FV.num 0] ∧
    (calcReturnsSingle 100000 [100, 110, 121, 1331/10, 11979/100]
        ([0, 1, 0, 0, -1].map FV.num)).cumulative_returns =
      [FV.num 1, FV.num 1, FV.num (11/10), FV.num (11/10), FV.num (11/10)] ∧
    ((11 : ℚ)/10 - 1 = 1/10 ∧ ¬ |(1 : ℚ)/10 - 89/1000| < 1/100) := by
  refine ⟨?_, ?_, by norm_num, ?_⟩
  rotate_left
  case refine_3 =>
    rw [show ((1 : ℚ)/10 - 89/1000) = 11/1000 by norm_num,
      abs_of_pos (by norm_num : (0 : ℚ) < 11/1000)]
    norm_num
  all_goals
    simp [calcReturnsSingle, assetReturnsSingle, pctChange, strategyReturnsCol,
      shiftCol, fillNullCol, cumulativeReturnsCol, cumProdAux, List.range_succ,
      FV.div, FV.sub, FV.mul, FV.add]
    norm_num [cumProdAux]

/-- Claim C4: Evaluation of the empty-input schemas: on an empty `PriceSeries`,
`PairsTradingStrategy.generate_signals` and
`MeanReversionStrategy.generate_signals` both return the
moving-average-crossover column set (`Close`, `short_mavg`, `long_mavg`)
instead of their own documented intermediate columns (`spread`/`z_score`,
resp. `mean`/`std`/`upper_band`/`lower_band`) that their non-empty outputs
carry. -/
theorem empty_schema_mismatch :
    ("spread" ∈ pairsTradingColumns ∧ "z_score" ∈ pairsTradingColumns ∧
      "spread" ∉ pairsTradingEmptySchema ∧ "z_score" ∉ pairsTradingEmptySchema) ∧
    ("upper_band" ∈ meanReversionColumns ∧ "lower_band" ∈ meanReversionColumns ∧
      "upper_band" ∉ meanReversionEmptySchema ∧
      "lower_band" ∉ meanReversionEmptySchema) ∧
    pairsTradingEmptySchema = movingAverageEmptySchema ∧
    meanReversionEmptySchema = movingAverageEmptySchema := by
  refine ⟨⟨?_, ?_, ?_, ?_⟩, ⟨?_, ?_, ?_, ?_⟩, rfl, rfl⟩ <;>
    simp [pairsTradingColumns, pairsTradingEmptySchema, meanReversionColumns,
      meanReversionEmptySchema]

/-- Claim C5: Mean Reversion: on any row whose rolling standard deviation is
exactly zero, the zero is replaced by NaN, both bands become NaN (an
undefined band, not a division error), every band comparison is false, and
the signal for that row is 0. -/
theorem mean_reversion_zero_std_signal (sq : ℚ → ℚ) (p : MeanReversionParams)
    (close : List ℚ) (i : Nat) (_ht : i < close.length)
    (h : rollingStd sq close p.window i = 0) :
    mrStdAdj sq close p.window i = FV.nan ∧
    mrUpper sq p close i = FV.nan ∧
    mrLower sq p close i = FV.nan ∧
    mrSignal sq p close i = FV.num 0 := by
  have hadj : mrStdAdj sq close p.window i = FV.nan := by
    simp [mrStdAdj, h, FV.eqb, FV.when]
  refine ⟨hadj, ?_, ?_, ?_⟩ <;>
    simp [mrSignal, mrUpper, mrLower, hadj, FV.when, FV.add, FV.sub, FV.mul,
      FV.ltb, FV.gtb]

/-- Claim C5 witness: the constant series `[3, 3]` with window 2 has rolling
standard deviation 0 at row 1, and the signal there is 0. -/
theorem mean_reversion_zero_std_signal_witness :
    mrStdAdj (fun q => q) [3, 3] 2 1 = FV.nan ∧
    mrUpper (fun q => q) { window := 2, std_dev := 2 } [3, 3] 1 = FV.nan ∧
    mrLower (fun q => q) { window := 2, std_dev := 2 } [3, 3] 1 = FV.nan ∧
    mrSignal (fun q => q) { window := 2, std_dev := 2 } [3, 3] 1 = FV.num 0 :=
  mean_reversion_zero_std_signal (fun q => q) { window := 2, std_dev := 2 }
    [3, 3] 1 (by norm_num)
    (by norm_num [rollingStd, window, sampleVar, qmean])

/-- Claim C6: Evaluation of the Sharpe-ratio computation at a single-row
backtest (price series `[100]`, buy-and-hold positions `[1]`): the
strategy-returns column is `[0]`, its standard deviation is undefined
(polars `Series.std()` returns `None` for fewer than two observations),
the guard `returns_std != 0 and not is_nan(returns_std)` nevertheless
passes (Python `None != 0` is `True` and `not None` is `True`), and the
division `sqrt(252) * mean / None` raises a `TypeError` — the code does
not return the NaN the claim requires for an undefined standard
deviation. -/
theorem sharpe_single_row_type_error :
    (calcReturnsSingle 100000 [100] [FV.num 1]).strategy_returns = [FV.num 0] ∧
    seriesStdF (fun q => q)
      ((calcReturnsSingle 100000 [100] [FV.num 1]).strategy_returns) = none ∧
    sharpeOf (fun q => q)
      ((calcReturnsSingle 100000 [100] [FV.num 1]).strategy_returns) =
      Except.error "TypeError" := by
  have hsr : (calcReturnsSingle 100000 [100] [FV.num 1]).strategy_returns =
      [FV.num 0] := by
    simp [calcReturnsSingle, assetReturnsSingle, pctChange, strategyReturnsCol,
      shiftCol, fillNullCol, List.range_succ, FV.mul]
  refine ⟨hsr, ?_, ?_⟩ <;>
    simp [hsr, sharpeOf, seriesMeanF, seriesStdF, colHasNan, numsOf]

/-! ### List-access helper lemmas -/

theorem getD_range_map {α : Type} (d : α) (f : Nat → α) (n t : Nat) (ht : t < n) :
    ((List.range n).map f).getD t d = f t := by
  simp [List.getD_eq_getElem?_getD, List.getElem?_map, List.getElem?_range, ht]

theorem getD_map_lt {α β : Type} (g : α → β) (l : List α) (t : Nat)
    (ht : t < l.length) (d : α) (e : β) : (l.map g).getD t e = g (l.getD t d) := by
  simp [List.getD_eq_getElem?_getD, List.getElem?_map, List.getElem?_eq_getElem, ht]

theorem getD_zipWith (f : FV → FV → FV) :
    ∀ (a b : List FV) (t : Nat), t < a.length → t < b.length →
      (List.zipWith f a b).getD t FV.null = f (a.getD t FV.null) (b.getD t FV.null)
  | [], _, _, ha, _ => by simp at ha
  | _ :: _, [], _, _, hb => by simp at hb
  | x :: _, y :: _, 0, _, _ => rfl
  | x :: a, y :: b, t + 1, ha, hb => by
      simpa using getD_zipWith f a b t (by simpa using ha) (by simpa using hb)

/-- `FV.when` on a decided mask is an if-then-else. -/
theorem FV.when_decide (c : Prop) [Decidable c] (a b : FV) :
    FV.when (some (decide c)) a b = if c then a else b := by
  by_cases h : c <;> simp [FV.when, h]

theorem FV.sub_null_right (x : FV) : FV.sub x FV.null = FV.null := by
  cases x <;> rfl

/-! ### Pairs-trading signal lemmas -/

/-- The z-score cell always holds the finite value `pairsZQ`. -/
theorem pairsZCell_eq (sq : ℚ → ℚ) (s : List ℚ) (w i : Nat) :
    pairsZCell sq s w i = FV.num (pairsZQ sq s w i) := by
  by_cases h : rollingStd sq s w i = 0 <;>
    simp [pairsZCell, pairsZQ, h, FV.neb, FV.when, FV.sub, FV.div]

theorem zScoreCol_getD (sq : ℚ → ℚ) (c1 c2 : List ℚ) (w t : Nat)
    (ht : t < (spreadList c1 c2).length) :
    (zScoreCol sq c1 c2 w).getD t FV.null =
      FV.num (pairsZQ sq (spreadList c1 c2) w t) := by
  rw [zScoreCol, getD_range_map _ _ _ _ ht, pairsZCell_eq]

/-- The raw (pre-fill) signal cell on a finite z-score, as an if-chain. -/
theorem pairsRawSignal_num (p : PairsParams) (z : ℚ) :
    pairsRawSignal p (FV.num z) =
      if p.entry_z_score < z then FV.num (-1)
      else if z < -p.entry_z_score then FV.num 1
      else if |z| < p.exit_z_score then FV.num 0
      else FV.null := by
  simp only [pairsRawSignal, FV.gtb, FV.ltb, FV.fabs, FV.when_decide]

/-- Claim C8: Pairs Trading: on every row, the z-score is the standardised
spread where the rolling standard deviation is nonzero and 0 where it is
zero (under `min_periods=1` the rolling standard deviation of the
single-observation first window is 0.0, so no row's standard deviation is
undefined); the division branch is never taken with a zero divisor and the
z-score cell is always a finite number, never null. -/
theorem pairs_z_score_division_guard (sq : ℚ → ℚ) (c1 c2 : List ℚ) (w t : Nat)
    (ht : t < (spreadList c1 c2).length) : zScoreProp sq c1 c2 w t := by
  have hz := zScoreCol_getD sq c1 c2 w t ht
  refine ⟨fun h => ?_, fun h => ?_, pairsZQ sq (spreadList c1 c2) w t, hz⟩ <;>
    rw [hz] <;> simp [pairsZQ, h]

/-- Claim C8 witness at spread `[4, 5]` (prices `[5, 7]` and `[1, 2]`), window 2,
row 1. -/
theorem pairs_z_score_division_guard_witness : zScoreProp (fun q => q) [5, 7] [1, 2] 2 1 :=
  pairs_z_score_division_guard (fun q => q) [5, 7] [1, 2] 2 1
    (by norm_num [spreadList])

/-! ### Forward-fill lemmas -/

theorem ffillAux_length : ∀ (xs : List FV) (last : FV),
    (ffillAux last xs).length = xs.length
  | [], _ => rfl
  | x :: xs, last => by simp [ffillAux, ffillAux_length xs]

theorem ffillAux_getD_rec :
    ∀ (xs : List FV) (last : FV) (t : Nat), t + 1 < xs.length →
      (ffillAux last xs).getD (t + 1) FV.null =
        (if xs.getD (t + 1) FV.null = FV.null
         then (ffillAux last xs).getD t FV.null
         else xs.getD (t + 1) FV.null)
  | [], _, t, h => absurd h (by simp)
  | [x], _, t, h => absurd h (by simp)
  | x :: z :: zs, last, 0, _ => by
      simp only [ffillAux, List.getD_cons_succ, List.getD_cons_zero]
  | x :: z :: zs, last, t + 1, h => by
      have h2 : t + 1 < (z :: zs).length := by simpa using h
      have ih := ffillAux_getD_rec (z :: zs) (if x = FV.null then last else x) t h2
      simpa [ffillAux, List.getD_cons_succ] using ih

theorem forwardFill_getD_rec (xs : List FV) (t : Nat) (h : t + 1 < xs.length) :
    (forwardFill xs).getD (t + 1) FV.null =
      (if xs.getD (t + 1) FV.null = FV.null
       then (forwardFill xs).getD t FV.null
       else xs.getD (t + 1) FV.null) :=
  ffillAux_getD_rec xs FV.null t h

theorem forwardFill_getD_zero (xs : List FV) :
    (forwardFill xs).getD 0 FV.null =
      (if xs.getD 0 FV.null = FV.null then FV.null else xs.getD 0 FV.null) := by
  cases xs with
  | nil => simp [forwardFill, ffillAux]
  | cons x xs => by_cases hx : x = FV.null <;> simp [forwardFill, ffillAux, hx]

theorem pairsSignal_length (sq : ℚ → ℚ) (c1 c2 : List ℚ) (p : PairsParams) :
    (pairsSignal sq c1 c2 p).length = (spreadList c1 c2).length := by
  simp [pairsSignal, fillNullCol, forwardFill, ffillAux_length, zScoreCol]

theorem pairsRaw_getD (sq : ℚ → ℚ) (c1 c2 : List ℚ) (p : PairsParams) (t : Nat)
    (ht : t < (spreadList c1 c2).length) :
    ((zScoreCol sq c1 c2 p.window).map (pairsRawSignal p)).getD t FV.null =
      pairsRawSignal p (FV.num (pairsZQ sq (spreadList c1 c2) p.window t)) := by
  rw [getD_map_lt (pairsRawSignal p) _ t (by simpa [zScoreCol] using ht) FV.null FV.null,
    zScoreCol_getD sq c1 c2 p.window t ht]

/-- Recurrence satisfied by the filled `signal` column: a determinable raw
signal is taken as is, otherwise the previous row's filled signal is
repeated (0 at the first row). -/
theorem pairsSignal_getD_rec (sq : ℚ → ℚ) (c1 c2 : List ℚ) (p : PairsParams)
    (t : Nat) (ht : t < (spreadList c1 c2).length) :
    (pairsSignal sq c1 c2 p).getD t FV.null =
      (if pairsRawSignal p (FV.num (pairsZQ sq (spreadList c1 c2) p.window t)) = FV.null
       then (if t = 0 then FV.num 0
             else (pairsSignal sq c1 c2 p).getD (t - 1) FV.null)
       else pairsRawSignal p (FV.num (pairsZQ sq (spreadList c1 c2) p.window t))) := by
  have hraws : ((zScoreCol sq c1 c2 p.window).map (pairsRawSignal p)).length =
      (spreadList c1 c2).length := by simp [zScoreCol]
  have hff : (forwardFill ((zScoreCol sq c1 c2 p.window).map (pairsRawSignal p))).length =
      (spreadList c1 c2).length := by
    simp [forwardFill, ffillAux_length, hraws]
  have hfill : ∀ s : Nat, s < (spreadList c1 c2).length →
      (pairsSignal sq c1 c2 p).getD s FV.null =
        (if (forwardFill ((zScoreCol sq c1 c2 p.window).map (pairsRawSignal p))).getD s FV.null = FV.null
         then FV.num 0
         else (forwardFill ((zScoreCol sq c1 c2 p.window).map (pairsRawSignal p))).getD s FV.null) := by
    intro s hs
    rw [pairsSignal, fillNullCol,
      getD_map_lt _ _ s (by rw [hff]; exact hs) FV.null FV.null]
  cases t with
  | zero =>
      rw [hfill 0 ht, forwardFill_getD_zero, pairsRaw_getD sq c1 c2 p 0 ht]
      by_cases h0 : pairsRawSignal p (FV.num (pairsZQ sq (spreadList c1 c2) p.window 0)) = FV.null <;>
        simp [h0]
  | succ s =>
      rw [hfill (s + 1) ht,
        forwardFill_getD_rec _ s (by rw [hraws]; exact ht),
        pairsRaw_getD sq c1 c2 p (s + 1) ht]
      have hs : s < (spreadList c1 c2).length := Nat.lt_of_succ_lt ht
      by_cases h0 : pairsRawSignal p (FV.num (pairsZQ sq (spreadList c1 c2) p.window (s + 1))) = FV.null
      · simp only [if_pos h0, if_neg (Nat.succ_ne_zero s), Nat.add_sub_cancel]
        exact (hfill s hs).symm
      · simp only [if_neg h0]

/-- Every cell of the filled `signal` column is a finite number. -/
theorem pairsSignal_getD_num (sq : ℚ → ℚ) (c1 c2 : List ℚ) (p : PairsParams) :
    ∀ t : Nat, t < (spreadList c1 c2).length →
      ∃ q : ℚ, (pairsSignal sq c1 c2 p).getD t FV.null = FV.num q := by
  intro t
  induction t with
  | zero =>
      intro ht
      rw [pairsSignal_getD_rec sq c1 c2 p 0 ht, pairsRawSignal_num]
      split_ifs <;> first | exact ⟨_, rfl⟩ | simp_all
  | succ s ih =>
      intro ht
      have hs : s < (spreadList c1 c2).length := Nat.lt_of_succ_lt ht
      have hprev := ih hs
      rw [pairsSignal_getD_rec sq c1 c2 p (s + 1) ht, pairsRawSignal_num]
      split_ifs <;> first | exact ⟨_, rfl⟩ | simpa using hprev | simp_all

theorem pairsPositions_getD_zero (sq : ℚ → ℚ) (c1 c2 : List ℚ) (p : PairsParams)
    (h0 : 0 < (spreadList c1 c2).length) :
    (pairsPositions sq c1 c2 p).getD 0 FV.null = FV.num 0 := by
  have hs := pairsSignal_length sq c1 c2 p
  have hdl : (diffCol (pairsSignal sq c1 c2 p)).length = (spreadList c1 c2).length := by
    simp [diffCol, hs]
  have hd0 : (diffCol (pairsSignal sq c1 c2 p)).getD 0 FV.null = FV.null := by
    rw [diffCol, getD_zipWith _ _ _ 0 (by rw [hs]; exact h0) (by simp)]
    exact FV.sub_null_right _
  rw [pairsPositions, fillNullCol,
    getD_map_lt _ _ 0 (by rw [hdl]; exact h0) FV.null FV.null, hd0]
  simp

theorem pairsPositions_getD_succ (sq : ℚ → ℚ) (c1 c2 : List ℚ) (p : PairsParams)
    (t : Nat) (ht : t + 1 < (spreadList c1 c2).length) :
    (pairsPositions sq c1 c2 p).getD (t + 1) FV.null =
      FV.sub ((pairsSignal sq c1 c2 p).getD (t + 1) FV.null)
        ((pairsSignal sq c1 c2 p).getD t FV.null) := by
  have hs := pairsSignal_length sq c1 c2 p
  have hdl : (diffCol (pairsSignal sq c1 c2 p)).length = (spreadList c1 c2).length := by
    simp [diffCol, hs]
  obtain ⟨a, ha⟩ := pairsSignal_getD_num sq c1 c2 p (t + 1) ht
  obtain ⟨b, hb⟩ := pairsSignal_getD_num sq c1 c2 p t (Nat.lt_of_succ_lt ht)
  have hd : (diffCol (pairsSignal sq c1 c2 p)).getD (t + 1) FV.null =
      FV.sub ((pairsSignal sq c1 c2 p).getD (t + 1) FV.null)
        ((pairsSignal sq c1 c2 p).getD t FV.null) := by
    rw [diffCol, getD_zipWith _ _ _ (t + 1) (by rw [hs]; exact ht) (by simp [hs]; omega)]
    rfl
  rw [pairsPositions, fillNullCol,
    getD_map_lt _ _ (t + 1) (by rw [hdl]; exact ht) FV.null FV.null, hd, ha, hb]
  simp [FV.sub]

/-- Claim C3: The Pairs-Trading signal rule with hysteresis: `-1` when
`z > entry_z_score`, `+1` when `z < -entry_z_score`, `0` when
`|z| < exit_z_score` (conditions tried in this order), and otherwise the
previous row's signal is carried forward, rows before the first
determinable signal being 0; `positions` is the day-over-day difference of
`signal` with first value 0. -/
theorem pairs_signal_hysteresis (sq : ℚ → ℚ) (c1 c2 : List ℚ) (p : PairsParams)
    (t : Nat) (ht : t < (spreadList c1 c2).length) : pairsSignalProp sq c1 c2 p t := by
  have hrec := pairsSignal_getD_rec sq c1 c2 p t ht
  rw [pairsRawSignal_num] at hrec
  refine ⟨fun h1 => ?_, fun h1 h2 => ?_, fun h1 h2 h3 => ?_, fun h1 h2 h3 => ?_,
    pairsPositions_getD_zero sq c1 c2 p (Nat.lt_of_le_of_lt (Nat.zero_le t) ht),
    fun h0 => ?_⟩
  · rw [hrec]; simp [h1]
  · rw [hrec]; simp [h1, h2]
  · rw [hrec]; simp [h1, h2, h3]
  · rw [hrec]; simp [h1, h2, h3]
  · obtain ⟨s, rfl⟩ : ∃ s, t = s + 1 := ⟨t - 1, (Nat.succ_pred_eq_of_pos h0).symm⟩
    simpa using pairsPositions_getD_succ sq c1 c2 p s ht

/-- Claim C3 witness at prices `[100, 110]` and `[100, 100]`, window 1,
`entry_z_score = 2`, `exit_z_score = 1/2`, row 1. -/
theorem pairs_signal_hysteresis_witness :
    pairsSignalProp (fun q => q) [100, 110] [100, 100]
      { window := 1, entry_z_score := 2, exit_z_score := 1/2 } 1 :=
  pairs_signal_hysteresis (fun q => q) [100, 110] [100, 100]
    { window := 1, entry_z_score := 2, exit_z_score := 1/2 } 1
    (by norm_num [spreadList])

/-! ### Optimiser lemmas -/

theorem FV.pygt_irrefl (a : FV) : FV.pygt a a = false := by
  cases a <;> simp [FV.pygt, FV.ltb]

theorem FV.pygt_trans_true {a b c : FV} (h1 : FV.pygt b a = true)
    (h2 : FV.pygt c b = true) : FV.pygt c a = true := by
  cases a <;> cases b <;> cases c <;> first
    | (simp_all [FV.pygt, FV.ltb]; try linarith)

theorem FV.pygt_false_of_gt {d s1 s2 : FV} (h1 : FV.pygt d s1 = false)
    (h2 : FV.pygt s2 s1 = true) : FV.pygt d s2 = false := by
  cases d <;> cases s1 <;> cases s2 <;> first
    | (simp_all [FV.pygt, FV.ltb]; try linarith)

theorem optStep_inv (score : Candidate → FV) (names : List String)
    (processed : List (List ℚ)) (st : OptState) (c : List ℚ)
    (h : StateInv score names processed st) :
    StateInv score names (processed ++ [c]) (optStep score names st c) := by
  obtain ⟨hdom, hcase⟩ := h
  by_cases hgt : FV.pygt (score (names.zip c)) st.best_sharpe
  · refine ⟨?_, Or.inr ⟨processed, c, [], by simp, ?_, ?_, ?_, ?_⟩⟩
    · intro d hd
      rcases List.mem_append.mp hd with hd | hd
      · simpa [optStep, hgt] using FV.pygt_false_of_gt (hdom d hd) hgt
      · simp only [List.mem_singleton] at hd
        rw [hd]
        simpa [optStep, hgt] using FV.pygt_irrefl (score (names.zip c))
    · simp [optStep, hgt]
    · simp [optStep, hgt]
    · simp only [optStep, hgt, if_true]
      rcases hcase with ⟨_, hsh⟩ | ⟨_, _, _, _, _, _, hninf, _⟩
      · rw [hsh] at hgt; exact hgt
      · exact FV.pygt_trans_true hninf hgt
    · intro d hd heq
      have h2 := hdom d hd
      simp only [optStep, hgt, if_true] at heq
      rw [heq] at h2
      simp [h2] at hgt
  · have hst : optStep score names st c = st := by simp [optStep, hgt]
    rw [hst]
    refine ⟨?_, ?_⟩
    · intro d hd
      rcases List.mem_append.mp hd with hd | hd
      · exact hdom d hd
      · simp only [List.mem_singleton] at hd
        rw [hd]
        exact eq_false_of_ne_true hgt
    · rcases hcase with ⟨hp, hsh⟩ | ⟨pre, c0, post, hproc, hp, hsh, hninf, hties⟩
      · exact Or.inl ⟨hp, hsh⟩
      · exact Or.inr ⟨pre, c0, post ++ [c], by rw [hproc]; simp, hp, hsh, hninf, hties⟩

theorem optLoop_inv (score : Candidate → FV) (names : List String) :
    ∀ (cs processed : List (List ℚ)) (st : OptState),
      StateInv score names processed st →
      StateInv score names (processed ++ cs) (optLoop score names cs st) := by
  intro cs
  induction cs with
  | nil => intro processed st h; simpa [optLoop] using h
  | cons c cs ih =>
      intro processed st h
      have h2 := ih (processed ++ [c]) (optStep score names st c)
        (optStep_inv score names processed st c h)
      simpa [optLoop, List.append_assoc] using h2

theorem optLoop_final_inv (score : Candidate → FV) (names : List String)
    (combos : List (List ℚ)) :
    StateInv score names combos
      (optLoop score names combos { best_params := none, best_sharpe := FV.ninf }) := by
  have h0 : StateInv score names [] { best_params := none, best_sharpe := FV.ninf } :=
    ⟨by simp, Or.inl ⟨rfl, rfl⟩⟩
  simpa using optLoop_inv score names combos [] _ h0

theorem itProduct_mem_iff {α : Type} :
    ∀ (ls : List (List α)) (vs : List α),
      vs ∈ itProduct ls ↔ List.Forall₂ (fun v l => v ∈ l) vs ls
  | [], vs => by simp [itProduct, List.forall₂_nil_right_iff]
  | l :: ls, vs => by
      simp only [itProduct, List.mem_flatMap, List.mem_map]
      constructor
      · rintro ⟨v, hv, c, hc, rfl⟩
        exact List.Forall₂.cons hv ((itProduct_mem_iff ls c).mp hc)
      · intro h
        cases h with
        | cons hv hc => exact ⟨_, hv, _, (itProduct_mem_iff ls _).mpr hc, rfl⟩

theorem itProduct_length_mem {α : Type} (ls : List (List α)) (vs : List α)
    (h : vs ∈ itProduct ls) : vs.length = ls.length :=
  ((itProduct_mem_iff ls vs).mp h).length_eq

/-- Claim C2: Whenever `optimise_strategy_params` returns, the returned
candidate is one of the combinations of the full cartesian product of the
ranges (enumerated in `itertools.product` order, leftmost axis slowest),
its Sharpe ratio equals the returned metrics' Sharpe ratio, no enumerated
candidate's Sharpe ratio is strictly greater (under the float `>` used by
the loop, so a NaN candidate never beats it), and no candidate enumerated
before it attains exactly the winning Sharpe ratio — the first-enumerated
candidate wins exact ties because the comparison is strict. -/
theorem optimise_params_best (score : Candidate → FV)
    (ranges : List (String × List ℚ)) (ps : Candidate) (s : FV)
    (h : optimise_strategy_params score ranges = Except.ok (ps, s)) :
    optBestProp score ranges ps s := by
  obtain ⟨hdom, hcase⟩ :=
    optLoop_final_inv score (ranges.map Prod.fst) (itProduct (ranges.map Prod.snd))
  rcases hcase with ⟨hp, hsh⟩ | ⟨pre, c, post, hproc, hp, hsh, hninf, hties⟩
  · simp [optimise_strategy_params, hp] at h
  · by_cases he : ((ranges.map Prod.fst).zip c).isEmpty
    · simp [optimise_strategy_params, hp, he] at h
    · simp only [optimise_strategy_params, hp, he, if_false, Bool.false_eq_true,
        Except.ok.injEq, Prod.mk.injEq] at h
      obtain ⟨hps, hs⟩ := h
      refine ⟨fun vs hvs => (itProduct_mem_iff _ _).mpr hvs,
        pre, c, post, hproc, hps.symm, ?_, ?_, ?_⟩
      · rw [← hs, hsh, hps]
      · intro d hd
        rw [← hs]
        exact hdom d hd
      · intro d hd
        rw [← hs]
        exact hties d hd

/-- Claim C2 witness: two candidates with identical Sharpe ratio 1; the
first-enumerated candidate `{"a": 1}` wins. -/
theorem optimise_params_best_witness :
    optBestProp (fun _ => FV.num 1) [("a", [1, 2])] [("a", 1)] (FV.num 1) :=
  optimise_params_best (fun _ => FV.num 1) [("a", [1, 2])] [("a", 1)] (FV.num 1)
    (by simp [optimise_strategy_params, itProduct, optLoop, optStep, FV.pygt, FV.ltb])

/-- Claim C7: `optimise_strategy_params` raises `ValueError("Parameter
optimisation failed")` — an error distinct from the schema errors raised
inside the backtest — exactly when the parameter space is empty (the
ranges mapping is empty; an empty candidate list makes the second
disjunct vacuously true) or no enumerated candidate's Sharpe ratio
exceeds `-inf` under the float `>` (e.g. every candidate's Sharpe ratio
is NaN). -/
theorem optimisation_failed_iff (score : Candidate → FV)
    (ranges : List (String × List ℚ)) :
    optimise_strategy_params score ranges =
        Except.error "Parameter optimisation failed" ↔
      (ranges = [] ∨
        ∀ c ∈ itProduct (ranges.map Prod.snd),
          FV.pygt (score ((ranges.map Prod.fst).zip c)) FV.ninf = false) := by
  obtain ⟨hdom, hcase⟩ :=
    optLoop_final_inv score (ranges.map Prod.fst) (itProduct (ranges.map Prod.snd))
  constructor
  · intro h
    rcases hcase with ⟨hp, hsh⟩ | ⟨pre, c, post, hproc, hp, hsh, hninf, hties⟩
    · right
      intro d hd
      have h2 := hdom d hd
      rwa [hsh] at h2
    · left
      by_cases he : ((ranges.map Prod.fst).zip c).isEmpty
      · have hzip : (ranges.map Prod.fst).zip c = [] := by
          simpa [List.isEmpty_iff] using he
        rcases List.zip_eq_nil_iff.mp hzip with hn | hc0
        · simpa using congrArg List.length hn
        · have hc : c ∈ itProduct (ranges.map Prod.snd) := by
            rw [hproc]; simp
          have hl := itProduct_length_mem _ _ hc
          rw [hc0] at hl
          simpa using hl.symm
      · simp [optimise_strategy_params, hp, he] at h
  · intro h
    rcases h with h | h
    · subst h
      cases hc : FV.pygt (score []) FV.ninf <;>
        simp [optimise_strategy_params, itProduct, optLoop, optStep, hc]
    · rcases hcase with ⟨hp, _⟩ | ⟨pre, c, post, hproc, hp, hsh, hninf, _⟩
      · simp [optimise_strategy_params, hp]
      · have hc : c ∈ itProduct (ranges.map Prod.snd) := by
          rw [hproc]; simp
        have h2 := h c hc
        rw [hsh] at hninf
        simp [h2] at hninf

/-- Claim C7 witness: a one-candidate space whose only Sharpe ratio is NaN makes
the optimiser fail. -/
theorem optimisation_failed_iff_witness :
    optimise_strategy_params (fun _ => FV.nan) [("a", [1])] =
      Except.error "Parameter optimisation failed" :=
  (optimisation_failed_iff (fun _ => FV.nan) [("a", [1])]).mpr
    (Or.inr (fun _ _ => rfl))

/-! ### Max-drawdown lemmas -/

theorem list_eq_of_getD (a b : List FV) (hlen : a.length = b.length)
    (h : ∀ i, i < a.length → a.getD i FV.null = b.getD i FV.null) : a = b := by
  apply List.ext_getElem hlen
  intro i h1 h2
  have h3 := h i h1
  rwa [List.getD_eq_getElem a FV.null h1, List.getD_eq_getElem b FV.null h2] at h3

theorem shiftCol_length (P : List FV) : (shiftCol P).length = P.length := by
  simp [shiftCol]

theorem shiftCol_getD (P : List FV) (i : Nat) (hi : i < P.length) :
    (shiftCol P).getD i FV.null =
      (if i = 0 then FV.null else P.getD (i - 1) FV.null) := by
  have h1 : (shiftCol P).getD i FV.null = (FV.null :: P).getD i FV.null := by
    rw [List.getD_eq_getElem?_getD, List.getD_eq_getElem?_getD, shiftCol,
      List.getElem?_take, if_pos hi]
  rw [h1]
  cases i with
  | zero => rfl
  | succ j => simp [List.getD_cons_succ]

theorem pctChange_length (close : List ℚ) : (pctChange close).length = close.length := by
  simp [pctChange]

theorem pctChange_getD (close : List ℚ) (i : Nat) (hi : i < close.length) :
    (pctChange close).getD i FV.null =
      (if i = 0 then FV.null
       else
         FV.div (FV.sub (FV.num (close.getD i 0)) (FV.num (close.getD (i - 1) 0)))
           (FV.num (close.getD (i - 1) 0))) := by
  rw [pctChange, getD_range_map _ _ _ _ hi]

theorem getD_mem_ne_zero (close : List ℚ) (h0 : ∀ x ∈ close, x ≠ 0) (j : Nat)
    (hj : j < close.length) : close.getD j 0 ≠ 0 := by
  rw [List.getD_eq_getElem close 0 hj]
  exact h0 _ (List.getElem_mem hj)

theorem strategyReturnsCol_eq_srQ (close posq : List ℚ)
    (h0 : ∀ x ∈ close, x ≠ 0) (hlen : posq.length = close.length) :
    strategyReturnsCol (posq.map FV.num) (assetReturnsSingle close) =
      (srQ close posq).map FV.num := by
  have hzw : (List.zipWith FV.mul (shiftCol (posq.map FV.num))
      (assetReturnsSingle close)).length = close.length := by
    simp [shiftCol_length, assetReturnsSingle, pctChange_length, hlen]
  apply list_eq_of_getD
  · simp [strategyReturnsCol, fillNullCol, hzw, srQ]
  · intro i hi
    have hic : i < close.length := by
      simpa [strategyReturnsCol, fillNullCol, hzw] using hi
    have hstep : (List.zipWith FV.mul (shiftCol (posq.map FV.num))
        (assetReturnsSingle close)).getD i FV.null =
        FV.mul ((shiftCol (posq.map FV.num)).getD i FV.null)
          ((assetReturnsSingle close).getD i FV.null) :=
      getD_zipWith _ _ _ i (by simp [shiftCol_length, hlen]; exact hic)
        (by simp [assetReturnsSingle, pctChange_length]; exact hic)
    have hLHS : (strategyReturnsCol (posq.map FV.num) (assetReturnsSingle close)).getD
        i FV.null =
        (fun x => if x = FV.null then FV.num 0 else x)
          ((fun x => match x with
            | FV.pinf => FV.null
            | FV.ninf => FV.null
            | v => v)
            ((List.zipWith FV.mul (shiftCol (posq.map FV.num))
              (assetReturnsSingle close)).getD i FV.null)) := by
      rw [strategyReturnsCol, fillNullCol,
        getD_map_lt _ _ i (by simpa [hzw] using hic) FV.null FV.null,
        getD_map_lt _ _ i (by simpa [hzw] using hic) FV.null FV.null]
    have hRHS : ((srQ close posq).map FV.num).getD i FV.null =
        FV.num (if i = 0 then 0 else posq.getD (i - 1) 0 * assetRetQ close i) := by
      rw [getD_map_lt _ _ i (by simp [srQ]; exact hic) (0 : ℚ) FV.null, srQ,
        getD_range_map _ _ _ _ hic]
    rw [hLHS, hstep, hRHS,
      shiftCol_getD _ i (by simpa [hlen] using hic)]
    simp only [assetReturnsSingle]
    rw [pctChange_getD close i hic]
    cases i with
    | zero => simp [FV.mul]
    | succ j =>
        have hj : j < posq.length := by omega
        have hne : close.getD j 0 ≠ 0 :=
          getD_mem_ne_zero close h0 j (by omega)
        simp only [if_neg (Nat.succ_ne_zero j), Nat.add_sub_cancel]
        rw [getD_map_lt FV.num posq j hj (0 : ℚ) FV.null]
        rw [List.getD_eq_getElem?_getD] at hne
        simp [FV.sub, FV.div, FV.mul, hne, assetRetQ, Nat.add_sub_cancel,
          List.getD_eq_getElem?_getD]

theorem cumProdAux_map (l : List ℚ) : ∀ a : ℚ,
    cumProdAux (FV.num a) (l.map FV.num) = (cumProdQ a l).map FV.num := by
  induction l with
  | nil => intro a; rfl
  | cons x xs ih => intro a; simp [cumProdAux, cumProdQ, FV.mul, FV.add, ih]

theorem equityCurveCol_map (capital : ℚ) (l : List ℚ) :
    equityCurveCol capital (l.map FV.num) =
      ((cumProdQ 1 l).map (fun x => capital * x)).map FV.num := by
  simp [equityCurveCol, cumulativeReturnsCol, cumProdAux_map, List.map_map]
  exact fun a _ => rfl

theorem cumMaxAux_map (l : List ℚ) : ∀ a : ℚ,
    cumMaxAux (FV.num a) (l.map FV.num) = (cumMaxQ a l).map FV.num := by
  induction l with
  | nil => intro a; rfl
  | cons x xs ih => intro a; simp [cumMaxAux, cumMaxQ, FV.maxv, ih]

theorem cumMaxCol_map (x : ℚ) (xs : List ℚ) :
    cumMaxCol ((x :: xs).map FV.num) = ((x :: cumMaxQ x xs).map FV.num) := by
  simp [cumMaxCol, cumMaxAux, FV.maxv, cumMaxAux_map]

theorem cumMaxQ_le (a : ℚ) : ∀ l : List ℚ, ∀ y ∈ cumMaxQ a l, a ≤ y := by
  intro l
  induction l generalizing a with
  | nil => intro y hy; simp [cumMaxQ] at hy
  | cons x xs ih =>
      intro y hy
      rcases List.mem_cons.mp hy with hy | hy
      · rw [hy]; exact le_max_left a x
      · exact le_trans (le_max_left a x) (ih (max a x) y hy)

theorem drawdowns_zip_map (u : List ℚ) : ∀ v : List ℚ, (∀ b ∈ v, b ≠ 0) →
    List.zipWith (fun e m => FV.sub (FV.div e m) (FV.num 1)) (u.map FV.num)
      (v.map FV.num) =
      (List.zipWith (fun e m => e / m - 1) u v).map FV.num := by
  induction u with
  | nil => intro v _; rfl
  | cons x xs ih =>
      intro v hv
      cases v with
      | nil => rfl
      | cons b bs =>
          have hb : b ≠ 0 := hv b (List.mem_cons_self b bs)
          have ih2 := ih bs (fun y hy => hv y (List.mem_cons_of_mem b hy))
          simp only [List.map_cons, List.zipWith_cons_cons, ih2]
          simp [FV.div, FV.sub, hb]

theorem foldl_minv_map (l : List ℚ) : ∀ a : ℚ,
    List.foldl FV.minv (FV.num a) (l.map FV.num) = FV.num (List.foldl min a l) := by
  induction l with
  | nil => intro a; rfl
  | cons x xs ih => intro a; simp [FV.minv, ih]

theorem minCol_map_cons (d : ℚ) (rest : List ℚ) :
    minCol ((d :: rest).map FV.num) = FV.num (List.foldl min d rest) := by
  simp [minCol, FV.minv, foldl_minv_map]

theorem foldl_min_le (l : List ℚ) : ∀ a : ℚ, List.foldl min a l ≤ a := by
  induction l with
  | nil => intro a; exact le_refl a
  | cons x xs ih =>
      intro a
      exact le_trans (ih (min a x)) (min_le_left a x)

/-- Claim C9: For every completed single-asset backtest on a positive price
series with positive initial capital, the max drawdown
`min(equity_curve / cum_max(equity_curve) - 1)` is a finite nonpositive
number. -/
theorem max_drawdown_nonpositive (capital : ℚ) (close posq : List ℚ)
    (hne : close ≠ []) (hpos : ∀ x ∈ close, 0 < x) (hcap : 0 < capital)
    (hlen : posq.length = close.length) : maxDrawdownProp capital close posq := by
  have h0 : ∀ x ∈ close, x ≠ 0 := fun x hx => ne_of_gt (hpos x hx)
  have hsr := strategyReturnsCol_eq_srQ close posq h0 hlen
  obtain ⟨n, hn⟩ : ∃ n, close.length = n + 1 := by
    cases hcl : close.length with
    | zero => exact absurd (List.length_eq_zero.mp hcl) hne
    | succ n => exact ⟨n, rfl⟩
  -- The strategy-returns list starts with 0.
  obtain ⟨tail, htail⟩ : ∃ tail, srQ close posq = 0 :: tail := by
    refine ⟨(List.range n).map
      (fun i => if i + 1 = 0 then 0 else posq.getD i 0 * assetRetQ close (i + 1)), ?_⟩
    rw [srQ, hn, List.range_succ_eq_map]
    simp [List.map_map, Function.comp]
  -- The equity curve is capital :: _, all cells finite.
  have hequity : (calcReturnsSingle capital close (posq.map FV.num)).equity_curve =
      ((capital :: (cumProdQ 1 tail).map (fun x => capital * x)).map FV.num) := by
    show equityCurveCol capital
      (strategyReturnsCol (posq.map FV.num) (assetReturnsSingle close)) = _
    rw [hsr, htail, equityCurveCol_map]
    norm_num [cumProdQ]
  -- cum_max and positivity of its entries
  have hms : ∀ y ∈ capital :: cumMaxQ capital ((cumProdQ 1 tail).map
      (fun x => capital * x)), y ≠ 0 := by
    intro y hy
    rcases List.mem_cons.mp hy with hy | hy
    · rw [hy]; exact ne_of_gt hcap
    · exact ne_of_gt (lt_of_lt_of_le hcap
        (cumMaxQ_le capital _ y hy))
  have hdd : drawdownsCol ((capital :: (cumProdQ 1 tail).map
      (fun x => capital * x)).map FV.num) =
      (List.zipWith (fun e m => e / m - 1)
        (capital :: (cumProdQ 1 tail).map (fun x => capital * x))
        (capital :: cumMaxQ capital ((cumProdQ 1 tail).map
          (fun x => capital * x)))).map FV.num := by
    rw [drawdownsCol, cumMaxCol_map, drawdowns_zip_map _ _ hms]
  have hhead : List.zipWith (fun e m => e / m - 1)
      (capital :: (cumProdQ 1 tail).map (fun x => capital * x))
      (capital :: cumMaxQ capital ((cumProdQ 1 tail).map (fun x => capital * x))) =
      0 :: List.zipWith (fun e m => e / m - 1)
        ((cumProdQ 1 tail).map (fun x => capital * x))
        (cumMaxQ capital ((cumProdQ 1 tail).map (fun x => capital * x))) := by
    simp [div_self (ne_of_gt hcap)]
  refine ⟨List.foldl min 0 (List.zipWith (fun e m => e / m - 1)
    ((cumProdQ 1 tail).map (fun x => capital * x))
    (cumMaxQ capital ((cumProdQ 1 tail).map (fun x => capital * x)))), ?_, ?_⟩
  · rw [maxDrawdownSingle, hequity, hdd, hhead, minCol_map_cons]
  · exact foldl_min_le _ 0

/-- Claim C9 witness at capital 100000, prices `[100, 110]`, positions `[1, 1]`. -/
theorem max_drawdown_nonpositive_witness : maxDrawdownProp 100000 [100, 110] [1, 1] :=
  max_drawdown_nonpositive 100000 [100, 110] [1, 1] (by simp)
    (by intro x hx; rcases List.mem_cons.mp hx with h | h
        · rw [h]; norm_num
        · simp at h; rw [h]; norm_num)
    (by norm_num) (by simp)

/-- Claim C10: With an empty `parameter_ranges` mapping the cartesian product
contains exactly one candidate — the empty tuple, giving the empty
parameter dict `{}` — and `optimise_strategy_params` raises "Parameter
optimisation failed" for every possible scoring outcome (in particular
even when that single candidate's backtest yields a finite Sharpe ratio),
because `not best_params` treats the empty dict as no winner. -/
theorem empty_ranges_always_fail (score : Candidate → FV) :
    itProduct (([] : List (String × List ℚ)).map Prod.snd) = [[]] ∧
    optimise_strategy_params score [] =
      Except.error "Parameter optimisation failed" := by
  refine ⟨rfl, ?_⟩
  cases hc : FV.pygt (score []) FV.ninf <;>
    simp [optimise_strategy_params, itProduct, optLoop, optStep, hc]

end QTSB
